import Mathlib

/-!
Verification development for the synchronization core of the `oh-my-prompt`
VSCode extension (prompt records, rules-file sync, external-edit detection).

The definitions below are shallow embeddings of the TypeScript sources:

* `src/src/types/prompt.ts` — the `Prompt` / `PromptMeta` data model;
* `src/src/services/promptManager.ts` — `savePrompt` (manual TOML template,
  lines 639-662), `loadPrompts` (naive TOML parsing, lines 583-637 and
  141-195), `syncGlobalPrompt` (378-388), `createPrompt` (719-743),
  `importFromIdeRules` (80-130), the `watchIdeRules` change handler (447-482);
* `src/unnamed/part_005` — the `loadPrompts` revision that returns
  `(prompt, path)` pairs and filters out entries whose parse threw;
* `src/src/services/documentWatcher.ts` — `trackSyncOperation` /
  `isSyncing` (147-170) and the `onDidChangeTextDocument` handler (178-229);
* `src/unnamed/part_006` — the `syncLock` + auto-release-timer variant and
  its `onDidSaveTextDocument` handler;
* `src/unnamed/part_007` — the `trackSyncOperation` revision that fires the
  `fileChangeEmitter` after a successful sync operation (lines 253-285);
* `src/unnamed/part_008` — `EnvironmentDetector.getRulesPath`.

JavaScript string primitives (`split`, `trim`, `replace(/…/g, …)`, the
`content = """ … """` regex) are modelled over `List Char` so that every
definition is executable and its behaviour on concrete inputs can be settled
by `decide`.  Asynchronous I/O is modelled by explicit state passing: a file
system is a `List (String × String)` association list (later writes shadow
earlier entries), and each effectful operation returns the updated state
together with its result; a thrown JS exception is an `Except.error` (or a
`Bool` flag where only success/failure matters).
-/

namespace OhMyPrompt

abbrev Chars := List Char

/-- `src/src/types/prompt.ts` `PromptMeta`.  The `type` field is kept as a
raw `String` because the TypeScript code casts parsed strings to
`PromptType` without checking (`meta.type as PromptType`). -/
structure PromptMeta where
  type : String
  id : String
  name : String
  description : String
  author : String
  version : String
  date : String
  license : String
deriving DecidableEq, Repr

/-- `src/src/types/prompt.ts` `Prompt`. -/
structure Prompt where
  meta : PromptMeta
  content : String
deriving DecidableEq, Repr

/-- The result of `loadPrompts`' naive TOML parsing: the TypeScript code
builds the meta object by indexing a `Record<string, string>`, so every
field may be `undefined` (modelled as `none`). -/
structure ParsedMeta where
  type : Option Chars
  id : Option Chars
  name : Option Chars
  description : Option Chars
  author : Option Chars
  version : Option Chars
  date : Option Chars
  license : Option Chars
deriving DecidableEq, Repr

/-- A prompt record as produced by `loadPrompts`. -/
structure ParsedPrompt where
  meta : ParsedMeta
  content : Chars
deriving DecidableEq, Repr

/-- Injection of a well-formed record into the parsed representation:
a round-tripped record has every meta field present. -/
def toParsed (p : Prompt) : ParsedPrompt :=
  { meta :=
      { type := some p.meta.type.toList
        id := some p.meta.id.toList
        name := some p.meta.name.toList
        description := some p.meta.description.toList
        author := some p.meta.author.toList
        version := some p.meta.version.toList
        date := some p.meta.date.toList
        license := some p.meta.license.toList }
    content := p.content.toList }

/-! ### JavaScript string primitives over `List Char` -/

/-- First occurrence of the separator `sep` in a character list: returns the
part before the occurrence and the part after it, or `none` when `sep` does
not occur.  This is the elementary step of `String.prototype.split` (JS
`split` keeps taking first occurrences left to right). -/
def breakOn (sep : Chars) : Chars → Option (Chars × Chars)
  | [] => none
  | c :: rest =>
    if sep.isPrefixOf (c :: rest) then some ([], (c :: rest).drop sep.length)
    else
      match breakOn sep rest with
      | none => none
      | some (a, b) => some (c :: a, b)

/-- JS `s.split(sep)[0]`: everything before the first occurrence of `sep`
(or the whole string when `sep` does not occur). -/
def jsSplitHead (sep l : Chars) : Chars :=
  match breakOn sep l with
  | none => l
  | some (a, _) => a

/-- JS `String.prototype.split("\n")` (all pieces). -/
def splitNL : Chars → List Chars
  | [] => [[]]
  | c :: rest =>
    if c = '\n' then [] :: splitNL rest
    else
      match splitNL rest with
      | [] => [[c]]
      | h :: t => (c :: h) :: t

/-- JS `String.prototype.trim`: strip leading and trailing whitespace. -/
def trimChars (l : Chars) : Chars :=
  ((l.dropWhile Char.isWhitespace).reverse.dropWhile Char.isWhitespace).reverse

/-- JS `value.replace(/"/g, "")`: remove every double quote. -/
def stripQuotes (l : Chars) : Chars := l.filter (fun c => c != '"')

/-- JS `String.prototype.endsWith`. -/
def jsEndsWith (suffix s : String) : Bool :=
  suffix.toList.reverse.isPrefixOf s.toList.reverse

/-- JS `s.replace(/[c]/g, "")` for a single character class member. -/
def removeAllChar (c : Char) (s : String) : String :=
  String.mk (s.toList.filter (fun x => x != c))

/-- JS `s.replace(/[c]/g, r)` for a single character class member. -/
def replaceAllChar (c r : Char) (s : String) : String :=
  String.mk (s.toList.map (fun x => if x == c then r else x))

/-! ### The on-disk TOML template (`savePrompt`) -/

/-- The three-character separator `" = "` used by the meta lines. -/
def eqSep : Chars := [' ', '=', ' ']

/-- The two-character separator `"\n\n"` that `loadPrompts` splits sections
on. -/
def nnSep : Chars := ['\n', '\n']

/-- The opening of the content section in the template:
`content = """` followed by a newline. -/
def contentOpen : Chars := "content = \"\"\"".toList ++ ['\n']

/-- The closing delimiter of the content section: a newline followed by
`"""`. -/
def contentClose : Chars := ['\n', '"', '"', '"']

/-- One line of the `[meta]` table: `key = "value"`. -/
def metaLineChars (key : String) (v : Chars) : Chars :=
  key.toList ++ eqSep ++ '"' :: v ++ ['"']

/-- The characters written by `savePrompt`
(`src/src/services/promptManager.ts` lines 644-656): the TypeScript template

```
[meta]
type = "…"
id = "…"
name = "…"
description = "…"
author = "…"
version = "…"
date = "…"
license = "…"

content = """
…content…
"""
```

spelled out as a character list (each interpolated field is inserted
verbatim, with no escaping — exactly as the template literal does). -/
def savePromptTomlChars (p : Prompt) : Chars :=
  "[meta]".toList ++ '\n' ::
  (metaLineChars "type" p.meta.type.toList ++ '\n' ::
  (metaLineChars "id" p.meta.id.toList ++ '\n' ::
  (metaLineChars "name" p.meta.name.toList ++ '\n' ::
  (metaLineChars "description" p.meta.description.toList ++ '\n' ::
  (metaLineChars "author" p.meta.author.toList ++ '\n' ::
  (metaLineChars "version" p.meta.version.toList ++ '\n' ::
  (metaLineChars "date" p.meta.date.toList ++ '\n' ::
  (metaLineChars "license" p.meta.license.toList ++ '\n' :: '\n' ::
  (contentOpen ++ p.content.toList ++ contentClose)))))))))

/-- `savePrompt`'s file content as a `String`. -/
def savePromptToml (p : Prompt) : String := String.mk (savePromptTomlChars p)

/-- The meta section of the template (everything before the blank line),
as a function of the eight interpolated field values. -/
def metaBlock (vT vI vN vD vA vV vDt vL : Chars) : Chars :=
  "[meta]".toList ++ '\n' ::
  (metaLineChars "type" vT ++ '\n' ::
  (metaLineChars "id" vI ++ '\n' ::
  (metaLineChars "name" vN ++ '\n' ::
  (metaLineChars "description" vD ++ '\n' ::
  (metaLineChars "author" vA ++ '\n' ::
  (metaLineChars "version" vV ++ '\n' ::
  (metaLineChars "date" vDt ++ '\n' ::
  metaLineChars "license" vL)))))))

/-! ### `loadPrompts`' naive TOML parsing -/

/-- Parse one line of the meta section
(`const [key, value] = line.split(" = "); meta[key.trim()] =
value.trim().replace(/"/g, "")`).  When the line contains no `" = "`,
`value` is `undefined` and `value.trim()` throws — modelled as `none`. -/
def parseMetaLine (l : Chars) : Option (Chars × Chars) :=
  match breakOn eqSep l with
  | none => none
  | some (k, rest) => some (trimChars k, stripQuotes (trimChars (jsSplitHead eqSep rest)))

/-- Parse every meta line; the JS `forEach` throws at the first line without
`" = "`, failing the whole record. -/
def parseMetaLines : List Chars → Option (List (Chars × Chars))
  | [] => some []
  | l :: ls =>
    match parseMetaLine l with
    | none => none
    | some kv =>
      match parseMetaLines ls with
      | none => none
      | some rest => some (kv :: rest)

/-- Reading `meta[k]` from the record built by sequential assignments
(a later assignment to the same key overrides an earlier one). -/
def lookupMeta (pairs : List (Chars × Chars)) (k : Chars) : Option Chars :=
  pairs.foldl (fun acc kv => if kv.1 = k then some kv.2 else acc) none

/-- Assemble the meta object exactly as `loadPrompts` does, reading the
eight expected keys (a missing key is JS `undefined`, i.e. `none`). -/
def buildParsedMeta (pairs : List (Chars × Chars)) : ParsedMeta :=
  { type := lookupMeta pairs "type".toList
    id := lookupMeta pairs "id".toList
    name := lookupMeta pairs "name".toList
    description := lookupMeta pairs "description".toList
    author := lookupMeta pairs "author".toList
    version := lookupMeta pairs "version".toList
    date := lookupMeta pairs "date".toList
    license := lookupMeta pairs "license".toList }

/-- The regex `/content = """\n([\s\S]*)\n"""/` applied to the content
section: the match starts at the first occurrence of the literal
`content = """\n`; the greedy group then extends to the *last* occurrence
of `\n"""` (found here as the first occurrence of the reversed delimiter in
the reversed remainder).  `none` when the regex does not match. -/
def matchContentRegex (l : Chars) : Option Chars :=
  match breakOn contentOpen l with
  | none => none
  | some (_, rest) =>
    match breakOn contentClose.reverse rest.reverse with
    | none => none
    | some (_, b) => some b.reverse

/-- `loadPrompts`' per-file parsing (`src/src/services/promptManager.ts`
lines 597-629, identical in `src/unnamed/part_005` lines 164-197):
split the file on blank lines, parse `sections[0]` as the meta table
(skipping the `[meta]` line) and run the content regex on `sections[1]`.
`none` models a thrown exception: a meta line without `" = "`
(`undefined.trim()`), or a file without any blank line (`sections[1]` is
`undefined`, so `contentSection.match` throws). -/
def parsePromptFileChars (s : Chars) : Option ParsedPrompt :=
  match breakOn nnSep s with
  | none => none
  | some (metaSection, rest) =>
    let contentSection := jsSplitHead nnSep rest
    match parseMetaLines ((splitNL metaSection).drop 1) with
    | none => none
    | some pairs =>
      some
        { meta := buildParsedMeta pairs
          content :=
            match matchContentRegex contentSection with
            | none => []
            | some g => g }

/-- String-level wrapper of the per-file parser. -/
def parsePromptFile (s : String) : Option ParsedPrompt :=
  parsePromptFileChars s.toList

/-- A directory listing: file name paired with file content.  The whole
listing is an `Except` so that a failing `fs.readdir` (missing directory,
I/O error) can be modelled. -/
abbrev DirListing := Except String (List (String × String))

/-- `loadPrompts` of `src/src/services/promptManager.ts` (lines 583-637,
same shape at 141-195): `Promise.all` over the `.toml` files — if any file's
parse throws, the whole `Promise.all` rejects and the outer `catch` returns
`[]`; a failing directory read also returns `[]`. -/
def loadPromptsRev (dir : DirListing) : List ParsedPrompt :=
  match dir with
  | .error _ => []
  | .ok files =>
    let toml := files.filter (fun f => jsEndsWith ".toml" f.1)
    if toml.all (fun f => (parsePromptFile f.2).isSome) then
      toml.filterMap (fun f => parsePromptFile f.2)
    else []

/-- `loadPrompts` of `src/unnamed/part_005` (lines 150-214): each file is
parsed inside its own `try`; a throwing file yields `{ prompt: null, path }`
and the final `filter((item) => item.prompt !== null)` drops it, so the
result only contains the successfully parsed `(prompt, path)` pairs.
A failing directory read returns `[]`. -/
def loadPromptsP5 (dir : DirListing) : List (ParsedPrompt × String) :=
  match dir with
  | .error _ => []
  | .ok files =>
    (files.filter (fun f => jsEndsWith ".toml" f.1)).filterMap
      (fun f => (parsePromptFile f.2).map (fun pr => (pr, f.1)))

/-! ### Timestamp ids (`createPrompt`, `importFromIdeRules`) -/

/-- The id generator shared by `createPrompt` and `importFromIdeRules`
(`src/src/services/promptManager.ts` lines 97-102, 227-231, 720-724):

```
new Date().toISOString().replace(/[:.]/g, "").replace(/[TZ]/g, "_").slice(0, -4)
```

applied to the ISO-8601 timestamp (millisecond precision,
`YYYY-MM-DDTHH:MM:SS.mmmZ`).  `slice(0, -4)` drops the last four characters
— the three millisecond digits and the trailing `_`. -/
def timestampId (iso : String) : String :=
  let s1 := removeAllChar ':' iso
  let s2 := removeAllChar '.' s1
  let s3 := replaceAllChar 'T' '_' s2
  let s4 := replaceAllChar 'Z' '_' s3
  String.mk (s4.toList.take (s4.toList.length - 4))

/-- `createPrompt` (`src/src/services/promptManager.ts` lines 719-743):
the new record, before it is written to the store. -/
def createPromptModel (ty iso : String) : Prompt :=
  { meta :=
      { type := ty
        id := timestampId iso
        name := "New Prompt"
        description := "No description yet"
        author := "User"
        version := "0.0.1"
        date := iso
        license := "MIT" }
    content := "\n# Enter your prompt content here..." }

/-! ### Environment detector and the file system model -/

/-- `src/unnamed/part_008` `IDEType`. -/
inductive IDE where
  | vscode
  | windsurf
  | cursor
  | unknown
deriving DecidableEq, Repr

/-- The lower-case IDE name (`vscode.env.appName`-derived identifier). -/
def ideName : IDE → String
  | .vscode => "vscode"
  | .windsurf => "windsurf"
  | .cursor => "cursor"
  | .unknown => "unknown"

/-- A file system: association list from path to content; `fsWrite`
prepends, `fsRead` takes the first match, so later writes shadow earlier
ones.  A path that is absent does not exist. -/
abbrev FS := List (String × String)

/-- `fs.writeFile`. -/
def fsWrite (fs : FS) (p c : String) : FS := (p, c) :: fs

/-- `fs.readFile` / `fs.access`: `none` when the path does not exist. -/
def fsRead (fs : FS) (p : String) : Option String := fs.lookup p

/-- The path computation of `EnvironmentDetector.getRulesPath`
(`src/unnamed/part_008` lines 94-143), without the file-creation side
effect.  For `global`: windsurf writes
`~/.codeium/windsurf/memories/global_rules.md`; cursor shows a notification
and returns the sentinel string `"cursor://settings"`; vscode/unknown throw.
For `project`: a workspace root is required; windsurf uses
`.windsurfrules`, cursor `.cursorrules`; vscode/unknown throw. -/
def getRulesPathResolve (ide : IDE) (ty : String) (workspaceRoot : Option String)
    (home : String) : Except String String :=
  if ty = "global" then
    match ide with
    | .windsurf => .ok (home ++ "/.codeium/windsurf/memories/global_rules.md")
    | .cursor => .ok "cursor://settings"
    | _ => .error ("The " ++ ideName ide ++ " does not support global rules")
  else
    match workspaceRoot with
    | none => .error "Workspace root is required for project rules"
    | some root =>
      match ide with
      | .windsurf => .ok (root ++ "/.windsurfrules")
      | .cursor => .ok (root ++ "/.cursorrules")
      | _ => .error ("The " ++ ideName ide ++ " does not support project rules")

/-- The file-creation side effect of `getRulesPath`
(`src/unnamed/part_008` lines 145-156): except for cursor global rules, a
missing rules file is created empty before the path is returned. -/
def ensureRulesFile (ide : IDE) (ty : String) (fs : FS) (p : String) : FS :=
  if ide = .cursor ∧ ty = "global" then fs
  else
    match fsRead fs p with
    | some _ => fs
    | none => fsWrite fs p ""

/-- `EnvironmentDetector.getRulesPath`: resolve the path, then ensure the
file exists (creating it empty when missing). -/
def getRulesPath (ide : IDE) (ty : String) (workspaceRoot : Option String)
    (home : String) (fs : FS) : FS × Except String String :=
  match getRulesPathResolve ide ty workspaceRoot home with
  | .error e => (fs, .error e)
  | .ok p => (ensureRulesFile ide ty fs p, .ok p)

/-! ### The sync engine -/

/-- `syncGlobalPrompt` (`src/src/services/promptManager.ts` lines 378-388):
reject non-global records, resolve the global rules path, then write the
record's content verbatim (`fs.writeFile(targetPath, prompt.content)`).
On success the performed write `(targetPath, content)` is returned so that
theorems can speak about it. -/
def syncGlobalPrompt (ide : IDE) (home : String) (fs : FS) (p : Prompt) :
    FS × Except String (String × String) :=
  if p.meta.type ≠ "global" then
    (fs, .error "Can only sync global prompts to global rules")
  else
    match getRulesPath ide "global" none home fs with
    | (fs1, .error e) => (fs1, .error e)
    | (fs1, .ok target) => (fsWrite fs1 target p.content, .ok (target, p.content))

/-- The fresh id `importFromIdeRules` generates
(`imported_${ide.toLowerCase()}_${timestamp}`). -/
def importedId (ide : IDE) (iso : String) : String :=
  "imported_" ++ ideName ide ++ "_" ++ timestampId iso

/-- Path of a record's TOML file in the prompt store
(`path.join(promptDir, type, id + ".toml")`). -/
def promptTomlPath (promptDir ty id : String) : String :=
  promptDir ++ "/" ++ ty ++ "/" ++ id ++ ".toml"

/-- The record synthesized by `importFromIdeRules`
(`src/src/services/promptManager.ts` lines 104-117). -/
def importedPrompt (ide : IDE) (ty iso content : String) : Prompt :=
  { meta :=
      { type := ty
        id := importedId ide iso
        name := "Imported from " ++ ideName ide
        description := "Rules imported from " ++ ideName ide ++ " at " ++ iso
        author := "IDE Import"
        version := "0.0.1"
        date := iso
        license := "MIT" }
    content := content }

/-- `importFromIdeRules` (`src/src/services/promptManager.ts` lines 80-130):
resolve the rules path (which may create a missing rules file empty), read
it if it exists, synthesize the imported record and persist it to the
prompt store via `savePrompt`.  Returns the updated file system and
`some record` on success, `none` when the rules file does not exist, and
`Except.error` when `getRulesPath` throws (re-thrown by the `catch`). -/
def importFromIdeRules (ide : IDE) (ty : String) (workspaceRoot : Option String)
    (home promptDir iso : String) (fs : FS) : FS × Except String (Option Prompt) :=
  match getRulesPath ide ty workspaceRoot home fs with
  | (fs1, .error e) => (fs1, .error e)
  | (fs1, .ok rulesPath) =>
    match fsRead fs1 rulesPath with
    | none => (fs1, .ok none)
    | some content =>
      let pr := importedPrompt ide ty iso content
      let toml := promptTomlPath promptDir ty pr.meta.id
      (fsWrite fs1 toml (savePromptToml pr), .ok (some pr))

/-! ### The document watcher: pending sync set, handlers, lock, notifier -/

/-- `this.syncOperations.add(filePath)` (a JS `Set`). -/
def addSyncOp (ops : List String) (fp : String) : List String :=
  if ops.contains fp then ops else fp :: ops

/-- `this.syncOperations.delete(filePath)`. -/
def removeSyncOp (ops : List String) (fp : String) : List String :=
  ops.filter (fun x => x != fp)

/-- `DocumentWatcher.isSyncing` (`src/src/services/documentWatcher.ts`
lines 168-170). -/
def isSyncing (ops : List String) (fp : String) : Bool := ops.contains fp

/-- The pending-set state while the operation wrapped by
`trackSyncOperation` is running: the path has been added, the operation has
not finished yet. -/
def trackSyncBegin (ops : List String) (fp : String) : List String :=
  addSyncOp ops fp

/-- The pending-set state after `trackSyncOperation` returns
(`src/src/services/documentWatcher.ts` lines 147-163): the `finally` block
removes the path whether the wrapped operation resolved or threw, so the
outcome flag does not influence the final set. -/
def trackSyncRun (ops : List String) (fp : String) (_opThrew : Bool) : List String :=
  removeSyncOp (trackSyncBegin ops fp) fp

/-- Classification produced by the `onDidChangeTextDocument` handler. -/
inductive EditDecision where
  | ignoredSyncing
  | notRulesFile
  | alreadyKnown
  | novelPrompt
deriving DecidableEq, Repr

/-- The `onDidChangeTextDocument` handler of
`src/src/services/documentWatcher.ts` (lines 178-229): a path in the
pending sync set is ignored; a path that is not a rules file is ignored;
otherwise the document text is compared byte-for-byte
(`prompts.find((p) => p.prompt.content === content)`) against every loaded
record — an exact match means the edit is already known, otherwise the user
is prompted to save it as a new prompt.  `rulesType` is the result of
`getRulesType` for the path. -/
def changeHandler (syncOps : List String) (rulesType : String → Option String)
    (prompts : List (ParsedPrompt × String)) (filePath : String)
    (content : Chars) : EditDecision :=
  if isSyncing syncOps filePath then .ignoredSyncing
  else
    match rulesType filePath with
    | none => .notRulesFile
    | some _ =>
      if prompts.any (fun q => q.1.content == content) then .alreadyKnown
      else .novelPrompt

/-- The `watcher.onDidChange` handler of `watchIdeRules`
(`src/src/services/promptManager.ts` lines 447-478): compare the rules-file
content against every loaded record of the category; prompt only when no
record matches exactly. -/
def watchRulesDecision (prompts : List ParsedPrompt) (content : Chars) : EditDecision :=
  if prompts.any (fun q => q.content == content) then .alreadyKnown
  else .novelPrompt

/-- The global sync lock of `src/unnamed/part_006` (lines 24-25):
the flag plus the auto-release deadline of the pending `setTimeout`. -/
structure LockState where
  syncLock : Bool
  syncTimeout : Option Nat
deriving DecidableEq, Repr

/-- `acquireSyncLock` (`src/unnamed/part_006` lines 37-46): set the flag and
(re)arm the auto-release timer to fire 1000 ms from now. -/
def acquireSyncLock (_st : LockState) (now : Nat) : LockState :=
  { syncLock := true, syncTimeout := some (now + 1000) }

/-- `releaseSyncLock` (`src/unnamed/part_006` lines 51-57). -/
def releaseSyncLock (_st : LockState) : LockState :=
  { syncLock := false, syncTimeout := none }

/-- The scheduler firing the auto-release timer: once the current time has
reached the armed deadline, the timer callback runs `releaseSyncLock`. -/
def expireSyncTimer (st : LockState) (now : Nat) : LockState :=
  match st.syncTimeout with
  | some deadline => if deadline ≤ now then releaseSyncLock st else st
  | none => st

/-- Outcome of the `onDidSaveTextDocument` handler of
`src/unnamed/part_006` (lines 79-125). -/
inductive SaveDecision where
  | lockSkipped
  | handleIdeRule
  | handleOmpPrompt
  | ignored
deriving DecidableEq, Repr

/-- The `onDidSaveTextDocument` handler of `src/unnamed/part_006`: while
`syncLock` is held the event is skipped outright; otherwise a rules file is
handled as an IDE-rule save and a store `.toml` file as a prompt save. -/
def onDidSaveDecision (syncLock : Bool) (isIdeRule isOmpToml : Bool) : SaveDecision :=
  if syncLock then .lockSkipped
  else if isIdeRule then .handleIdeRule
  else if isOmpToml then .handleOmpPrompt
  else .ignored

/-- State threaded through the change-notifier model of
`src/unnamed/part_007`: the pending sync set, the events fired so far on
`fileChangeEmitter`, and the file system. -/
structure WatcherState where
  syncOps : List String
  events : List (String × String)
  fs : FS
deriving DecidableEq, Repr

/-- `trackSyncOperation` of `src/unnamed/part_007` (lines 253-285) wrapping
a push of record `r` to the rules file `fp`: the path is added to the sync
set, the wrapped operation writes `r.content` to `fp` (`opOk = false`
models the operation throwing before the write takes effect), on success
the file is read back and exactly one `{type, content}` event is fired
(with content `""` only if the read-back were to fail — in this state model
reading a just-written path always succeeds), and the `finally` block
removes the path from the set on every exit. -/
def trackSyncPush (st : WatcherState) (fp : String)
    (rulesType : String → Option String) (r : Prompt) (opOk : Bool) : WatcherState :=
  let s1 : WatcherState := { st with syncOps := addSyncOp st.syncOps fp }
  if opOk then
    let s2 : WatcherState := { s1 with fs := fsWrite s1.fs fp r.content }
    let s3 : WatcherState :=
      match rulesType fp with
      | some t => { s2 with events := s2.events ++ [(t, (fsRead s2.fs fp).getD "")] }
      | none => s2
    { s3 with syncOps := removeSyncOp s3.syncOps fp }
  else
    { s1 with syncOps := removeSyncOp s1.syncOps fp }

/-! ### Well-formedness predicates for the round-trip claim -/

/-- No two consecutive newlines: the step relation whose `Chain'` closure
says a character list contains no blank line. -/
def nnR (a b : Char) : Prop := ¬(a = '\n' ∧ b = '\n')

instance (a b : Char) : Decidable (nnR a b) :=
  inferInstanceAs (Decidable (¬(a = '\n' ∧ b = '\n')))

/-- A meta field value survives the naive TOML round trip when it contains
no newline (a newline breaks the line structure), no double quote (quotes
are stripped wholesale on load) and no `" = "` (the line is split on the
first two occurrences of `" = "`). -/
def metaValueOkC (v : Chars) : Prop :=
  (∀ c ∈ v, c ≠ '\n' ∧ c ≠ '"') ∧ breakOn eqSep v = none

instance (v : Chars) : Decidable (metaValueOkC v) :=
  inferInstanceAs
    (Decidable ((∀ c ∈ v, c ≠ '\n' ∧ c ≠ '"') ∧ breakOn eqSep v = none))

/-- String-level form of `metaValueOkC`. -/
def metaValueOk (v : String) : Prop := metaValueOkC v.toList

instance (v : String) : Decidable (metaValueOk v) :=
  inferInstanceAs (Decidable (metaValueOkC v.toList))

/-- Every field of the meta table is round-trip safe. -/
def metaOk (m : PromptMeta) : Prop :=
  metaValueOk m.type ∧ metaValueOk m.id ∧ metaValueOk m.name ∧
  metaValueOk m.description ∧ metaValueOk m.author ∧ metaValueOk m.version ∧
  metaValueOk m.date ∧ metaValueOk m.license

instance (m : PromptMeta) : Decidable (metaOk m) :=
  inferInstanceAs
    (Decidable (metaValueOk m.type ∧ metaValueOk m.id ∧ metaValueOk m.name ∧
      metaValueOk m.description ∧ metaValueOk m.author ∧ metaValueOk m.version ∧
      metaValueOk m.date ∧ metaValueOk m.license))

/-- The content survives the round trip when the written block
`"""\n<content>\n"""` contains no blank line: the content is nonempty, does
not start or end with a newline, and has no `\n\n` inside.  (All four
conditions say exactly that the newline-padded content has no `\n\n`
occurrence.) -/
def contentOk (c : String) : Prop :=
  breakOn nnSep ('\n' :: c.toList ++ ['\n']) = none

instance (c : String) : Decidable (contentOk c) :=
  inferInstanceAs (Decidable (breakOn nnSep ('\n' :: c.toList ++ ['\n']) = none))

/-- A record that the naive TOML persistence round-trips faithfully. -/
def promptOk (p : Prompt) : Prop := metaOk p.meta ∧ contentOk p.content

instance (p : Prompt) : Decidable (promptOk p) :=
  inferInstanceAs (Decidable (metaOk p.meta ∧ contentOk p.content))

/-! ### Concrete records used by counterexamples and evaluations -/

/-- A record whose content contains a blank line — the naive parser
truncates the file at that blank line and recovers `""` as content. -/
def blankLinePrompt : Prompt :=
  { meta :=
      { type := "project"
        id := "p42"
        name := "Tabs"
        description := "No description yet"
        author := "User"
        version := "0.0.1"
        date := "2025-01-12_034559"
        license := "MIT" }
    content := "line one\n\nline two" }

/-- A well-formed record used to witness the amended round-trip claim. -/
def witnessPrompt : Prompt :=
  { meta :=
      { type := "project"
        id := "p1"
        name := "My Prompt"
        description := "No description yet"
        author := "User"
        version := "0.0.1"
        date := "2025-01-12T03:45:59.123Z"
        license := "MIT" }
    content := "Use tabs. She said \"hi\" and a \"\"\" sequence survives." }

/-- A global record pushed while the detected IDE is cursor. -/
def cursorPushPrompt : Prompt :=
  { meta :=
      { type := "global"
        id := "g1"
        name := "Concise"
        description := "No description yet"
        author := "User"
        version := "0.0.1"
        date := "2025-01-12_034559"
        license := "MIT" }
    content := "Be concise." }

/-! ## Lemmas about the splitting primitives -/

theorem isPrefixOf_of_append (sep S T : Chars) (hlen : sep.length ≤ S.length)
    (h : sep.isPrefixOf (S ++ T) = true) : sep.isPrefixOf S = true := by
  rw [ List.isPrefixOf_iff_prefix] at h ⊢
  rw [ List.prefix_iff_eq_take] at h ⊢
  rwa [List.take_append_of_le_length hlen] at h

theorem mem_of_mem_getLast? (l : Chars) (x : Char) (h : l.getLast? = some x) : x ∈ l := by
  obtain ⟨hne, rfl⟩ := List.mem_getLast?_eq_getLast h
  exact List.getLast_mem hne

theorem breakOn_self_append (sep B : Chars) (hs : sep ≠ []) :
    breakOn sep (sep ++ B) = some ([], B) := by
  cases sep with
  | nil => exact absurd rfl hs
  | cons s t =>
    have hp : (s :: t).isPrefixOf ((s :: t) ++ B) = true := by
      rw [ List.isPrefixOf_iff_prefix]
      exact ⟨B, rfl⟩
    have hd : ((s :: t) ++ B).drop (s :: t).length = B := List.drop_left _ _
    rw [List.cons_append] at hp hd
    rw [List.cons_append]
    simp only [breakOn]
    rw [if_pos hp, hd]

theorem breakOn_none_of_short (sep X : Chars) (h : X.length < sep.length) :
    breakOn sep X = none := by
  induction X with
  | nil => rfl
  | cons c X ih =>
    simp only [breakOn]
    have hp : ¬ (sep.isPrefixOf (c :: X) = true) := by
      intro hb
      rw [ List.isPrefixOf_iff_prefix] at hb
      have := hb.length_le
      simp only [List.length_cons] at h this
      omega
    rw [if_neg hp, ih (by simp only [List.length_cons] at h; omega)]

theorem breakOn_cons_none (h : Char) (t : Chars) (c : Char) (X : Chars)
    (hc : c ≠ h) (hX : breakOn (h :: t) X = none) :
    breakOn (h :: t) (c :: X) = none := by
  simp only [breakOn]
  have hp : ¬ ((h :: t).isPrefixOf (c :: X) = true) := by
    intro hb
    rw [ List.isPrefixOf_iff_prefix] at hb
    obtain ⟨u, hu⟩ := hb
    have : h = c := by
      have := congrArg List.head? hu
      simpa using this
    exact hc this.symm
  rw [if_neg hp, hX]

theorem breakOn_mid (sep A B : Chars) (hs : sep ≠ [])
    (hA : breakOn sep (A ++ sep.dropLast) = none) :
    breakOn sep (A ++ (sep ++ B)) = some (A, B) := by
  induction A with
  | nil => simpa using breakOn_self_append sep B hs
  | cons c A ih =>
    rw [List.cons_append] at hA ⊢
    simp only [breakOn] at hA ⊢
    by_cases hp : sep.isPrefixOf (c :: (A ++ sep.dropLast)) = true
    · rw [if_pos hp] at hA; cases hA
    · rw [if_neg hp] at hA
      have hrec : breakOn sep (A ++ sep.dropLast) = none := by
        cases hq : breakOn sep (A ++ sep.dropLast) with
        | none => rfl
        | some ab =>
          obtain ⟨a, b⟩ := ab
          rw [hq] at hA
          cases hA
      have hp2 : ¬ (sep.isPrefixOf (c :: (A ++ (sep ++ B))) = true) := by
        intro hb
        apply hp
        have hlen : sep.length ≤ (c :: (A ++ sep.dropLast)).length := by
          cases sep with
          | nil => exact absurd rfl hs
          | cons s t =>
            simp only [List.length_cons, List.length_append, List.length_dropLast]
            omega
        have hsplit : (c :: (A ++ sep.dropLast)) ++ (sep.getLast hs :: B)
            = c :: (A ++ (sep ++ B)) := by
          rw [show sep.getLast hs :: B = [sep.getLast hs] ++ B from rfl]
          rw [List.cons_append, List.append_assoc]
          rw [← List.append_assoc sep.dropLast, List.dropLast_append_getLast hs]
        rw [← hsplit] at hb
        exact isPrefixOf_of_append _ _ _ hlen hb
      rw [if_neg hp2, ih hrec]

theorem breakOn_append_short (h : Char) (t X Y : Chars)
    (hX : ∀ c ∈ X, c ≠ h) (hY : Y.length < (h :: t).length) :
    breakOn (h :: t) (X ++ Y) = none := by
  induction X with
  | nil => simpa using breakOn_none_of_short _ Y hY
  | cons c X ih =>
    rw [List.cons_append]
    exact breakOn_cons_none h t c (X ++ Y) (hX c (by simp))
      (ih (fun d hd => hX d (by simp [hd])))

theorem breakOn_append_single (h : Char) (t : Chars) (X : Chars) (c : Char)
    (hc : c ∉ h :: t) (hX : breakOn (h :: t) X = none) :
    breakOn (h :: t) (X ++ [c]) = none := by
  induction X with
  | nil =>
    rw [List.nil_append]
    refine breakOn_cons_none h t c [] ?_ rfl
    intro hch
    exact hc (by simp [hch])
  | cons d X ih =>
    simp only [breakOn] at hX
    by_cases hp : (h :: t).isPrefixOf (d :: X) = true
    · rw [if_pos hp] at hX; cases hX
    · rw [if_neg hp] at hX
      have hrec : breakOn (h :: t) X = none := by
        cases hq : breakOn (h :: t) X with
        | none => rfl
        | some ab =>
          obtain ⟨a, b⟩ := ab
          rw [hq] at hX
          cases hX
      rw [List.cons_append]
      simp only [breakOn]
      have hp2 : ¬ ((h :: t).isPrefixOf (d :: (X ++ [c])) = true) := by
        intro hb
        by_cases hlen : (h :: t).length ≤ (d :: X).length
        · refine hp (isPrefixOf_of_append _ _ [c] hlen ?_)
          rwa [List.cons_append]
        · rw [ List.isPrefixOf_iff_prefix] at hb
          have hle := hb.length_le
          simp only [List.length_cons, List.length_append, List.length_singleton,
            List.length_nil, not_le] at hle hlen
          have hlen2 : (h :: t).length = (d :: (X ++ [c])).length := by
            simp only [List.length_cons, List.length_append, List.length_singleton,
              List.length_nil]
            omega
          have heq := hb.eq_of_length hlen2
          apply hc
          rw [heq]
          simp
      rw [if_neg hp2, ih hrec]

theorem breakOn_cons_eq (sep : Chars) (c : Char) (rest : Chars) :
    breakOn sep (c :: rest) =
      if sep.isPrefixOf (c :: rest) then some ([], (c :: rest).drop sep.length)
      else
        match breakOn sep rest with
        | none => none
        | some (a, b) => some (c :: a, b) := rfl

theorem breakOn_nn_none_iff (X : Chars) :
    breakOn nnSep X = none ↔ List.Chain' nnR X := by
  induction X with
  | nil => simp [breakOn]
  | cons c X ih =>
    cases X with
    | nil =>
      constructor
      · intro _
        simp
      · intro _
        rw [breakOn_cons_eq]
        rw [if_neg (by simp [nnSep, List.isPrefixOf])]
        rfl
    | cons d Y =>
      rw [List.chain'_cons, ← ih, breakOn_cons_eq]
      by_cases hcd : c = '\n' ∧ d = '\n'
      · obtain ⟨rfl, rfl⟩ := hcd
        rw [if_pos (by simp [nnSep, List.isPrefixOf])]
        constructor
        · intro hsome
          cases hsome
        · rintro ⟨hr, -⟩
          exact absurd ⟨rfl, rfl⟩ hr
      · rw [if_neg (by
          simp only [nnSep, List.isPrefixOf, Bool.and_eq_true, beq_iff_eq]
          intro hco
          exact hcd ⟨hco.1.symm, hco.2.1.symm⟩)]
        constructor
        · intro hm
          refine ⟨hcd, ?_⟩
          cases hq : breakOn nnSep (d :: Y) with
          | none => rfl
          | some ab =>
            obtain ⟨a, b⟩ := ab
            rw [hq] at hm
            cases hm
        · rintro ⟨-, hr⟩
          rw [hr]

theorem chainNN_of_noNl (l : Chars) (hl : ∀ c ∈ l, c ≠ '\n') : List.Chain' nnR l := by
  induction l with
  | nil => simp
  | cons c l ih =>
    cases l with
    | nil => simp
    | cons d m =>
      rw [List.chain'_cons]
      refine ⟨fun hcd => (hl c (by simp)) hcd.1, ih (fun x hx => hl x (by simp [hx]))⟩

theorem chainNN_step (l rest : Chars) (hl : ∀ c ∈ l, c ≠ '\n') (hl0 : l ≠ [])
    (hrest : List.Chain' nnR rest) :
    List.Chain' nnR ('\n' :: (l ++ rest)) := by
  have h1 : List.Chain' nnR (l ++ rest) := by
    rw [List.chain'_append]
    refine ⟨chainNN_of_noNl l hl, hrest, ?_⟩
    intro x hx y _ hcon
    exact (hl x (mem_of_mem_getLast? l x hx)) hcon.1
  obtain ⟨a, l', rfl⟩ : ∃ a l', l = a :: l' := by
    cases l with
    | nil => exact absurd rfl hl0
    | cons a l' => exact ⟨a, l', rfl⟩
  rw [List.cons_append, List.chain'_cons]
  refine ⟨fun hcon => (hl a (by simp)) hcon.2, ?_⟩
  rwa [List.cons_append] at h1

theorem splitNL_append (A B : Chars) (hA : ∀ c ∈ A, c ≠ '\n') :
    splitNL (A ++ '\n' :: B) = A :: splitNL B := by
  induction A with
  | nil =>
    rw [List.nil_append]
    simp [splitNL]
  | cons c A ih =>
    rw [List.cons_append]
    simp only [splitNL]
    rw [if_neg (hA c (by simp)), ih (fun x hx => hA x (by simp [hx]))]

theorem splitNL_noNl (A : Chars) (hA : ∀ c ∈ A, c ≠ '\n') : splitNL A = [A] := by
  induction A with
  | nil => rfl
  | cons c A ih =>
    simp only [splitNL]
    rw [if_neg (hA c (by simp)), ih (fun x hx => hA x (by simp [hx]))]

theorem trim_quoted (v : Chars) : trimChars ('"' :: v ++ ['"']) = '"' :: v ++ ['"'] := by
  have hws : ('"' : Char).isWhitespace = false := by decide
  unfold trimChars
  rw [List.cons_append, List.dropWhile_cons_of_neg (by simp [hws])]
  have hrev : ('"' :: (v ++ ['"'])).reverse = '"' :: (v.reverse ++ ['"']) := by
    simp
  rw [hrev, List.dropWhile_cons_of_neg (by simp [hws])]
  simp

theorem stripQuotes_quoted (v : Chars) (hv : ∀ c ∈ v, c ≠ '"') :
    stripQuotes ('"' :: v ++ ['"']) = v := by
  unfold stripQuotes
  rw [List.cons_append, List.filter_cons_of_neg (by simp), List.filter_append]
  rw [List.filter_eq_self.mpr (fun c hc => by simpa using hv c hc)]
  simp

theorem breakOn_eqSep_quoted (v : Chars) (hveq : breakOn eqSep v = none) :
    breakOn eqSep ('"' :: v ++ ['"']) = none := by
  rw [List.cons_append]
  refine breakOn_cons_none ' ' ['=', ' '] '"' (v ++ ['"']) (by decide) ?_
  exact breakOn_append_single ' ' ['=', ' '] v '"' (by decide) hveq

theorem parseMetaLine_mk (k : String) (v : Chars)
    (hk1 : ∀ c ∈ k.toList, c ≠ ' ') (hk2 : trimChars k.toList = k.toList)
    (hv : ∀ c ∈ v, c ≠ '"') (hveq : breakOn eqSep v = none) :
    parseMetaLine (metaLineChars k v) = some (k.toList, v) := by
  have h1 : breakOn eqSep (k.toList ++ (eqSep ++ ('"' :: v ++ ['"'])))
      = some (k.toList, '"' :: v ++ ['"']) := by
    refine breakOn_mid eqSep _ _ (by decide) ?_
    rw [show eqSep.dropLast = [' ', '='] from rfl]
    exact breakOn_append_short ' ' ['=', ' '] k.toList [' ', '='] hk1 (by decide)
  have hshape : metaLineChars k v = k.toList ++ (eqSep ++ ('"' :: v ++ ['"'])) := by
    unfold metaLineChars
    simp only [List.append_assoc]
  unfold parseMetaLine
  rw [hshape, h1]
  show some (trimChars k.toList,
      stripQuotes (trimChars (jsSplitHead eqSep ('"' :: v ++ ['"'])))) = some (k.toList, v)
  unfold jsSplitHead
  rw [breakOn_eqSep_quoted v hveq]
  show some (trimChars k.toList,
      stripQuotes (trimChars ('"' :: v ++ ['"']))) = some (k.toList, v)
  rw [hk2, trim_quoted, stripQuotes_quoted v hv]

theorem metaLineChars_noNl (k : String) (v : Chars) (hk : ∀ c ∈ k.toList, c ≠ '\n')
    (hv : ∀ c ∈ v, c ≠ '\n') : ∀ c ∈ metaLineChars k v, c ≠ '\n' := by
  intro c hc
  unfold metaLineChars at hc
  simp only [List.append_assoc] at hc
  rcases List.mem_append.mp hc with h1 | h2
  · exact hk c h1
  rcases List.mem_append.mp h2 with h3 | h4
  · simp only [eqSep, List.mem_cons, List.not_mem_nil, or_false] at h3
    rcases h3 with rfl | rfl | rfl <;> decide
  rcases List.mem_append.mp h4 with h5 | h6
  · rcases List.mem_cons.mp h5 with rfl | h7
    · decide
    · exact hv c h7
  · simp only [List.mem_singleton] at h6
    subst h6
    decide

theorem metaLineChars_ne_nil (k : String) (v : Chars) : metaLineChars k v ≠ [] := by
  unfold metaLineChars
  simp

theorem matchContentRegex_block (C : Chars) :
    matchContentRegex (contentOpen ++ C ++ contentClose) = some C := by
  unfold matchContentRegex
  rw [List.append_assoc, breakOn_self_append contentOpen (C ++ contentClose) (by decide)]
  show (match breakOn contentClose.reverse (C ++ contentClose).reverse with
        | none => none
        | some (_, b) => some b.reverse) = some C
  rw [List.reverse_append, breakOn_self_append contentClose.reverse C.reverse (by decide)]
  show some C.reverse.reverse = some C
  rw [List.reverse_reverse]

theorem contentBlock_nl_free (C : Chars)
    (hC : breakOn nnSep ('\n' :: C ++ ['\n']) = none) :
    breakOn nnSep (contentOpen ++ C ++ contentClose) = none := by
  rw [breakOn_nn_none_iff] at hC ⊢
  have hshape : contentOpen ++ C ++ contentClose
      = "content = \"\"\"".toList ++ ('\n' :: (C ++ '\n' :: ['"', '"', '"'])) := by
    simp only [contentOpen, contentClose, List.append_assoc, List.cons_append,
      List.nil_append]
  rw [hshape, List.chain'_append]
  refine ⟨(breakOn_nn_none_iff _).mp (by decide), ?_, ?_⟩
  · have htail : List.Chain' nnR ((('\n' :: C) ++ ['\n']) ++ ['"', '"', '"']) := by
      rw [List.chain'_append]
      refine ⟨hC, (breakOn_nn_none_iff _).mp (by decide), ?_⟩
      intro x hx y hy
      obtain rfl : '\n' = x := by
        rw [List.getLast?_concat] at hx
        simpa using hx
      obtain rfl : '"' = y := by simpa using hy
      decide
    have : (('\n' :: C) ++ ['\n']) ++ ['"', '"', '"']
        = '\n' :: (C ++ '\n' :: ['"', '"', '"']) := by
      simp only [List.cons_append, List.append_assoc, List.nil_append]
    rwa [this] at htail
  · intro x hx y hy
    obtain rfl : '"' = x := by
      have hg : ("content = \"\"\"".toList).getLast? = some '"' := by decide
      rw [hg] at hx
      simpa using hx
    obtain rfl : '\n' = y := by simpa using hy
    decide

theorem metaBlock_nl_free (vT vI vN vD vA vV vDt vL : Chars)
    (hT : ∀ c ∈ vT, c ≠ '\n') (hI : ∀ c ∈ vI, c ≠ '\n') (hN : ∀ c ∈ vN, c ≠ '\n')
    (hD : ∀ c ∈ vD, c ≠ '\n') (hA : ∀ c ∈ vA, c ≠ '\n') (hV : ∀ c ∈ vV, c ≠ '\n')
    (hDt : ∀ c ∈ vDt, c ≠ '\n') (hL : ∀ c ∈ vL, c ≠ '\n') :
    breakOn nnSep (metaBlock vT vI vN vD vA vV vDt vL ++ ['\n']) = none := by
  rw [breakOn_nn_none_iff]
  have n1 := metaLineChars_noNl "type" vT (by decide) hT
  have n2 := metaLineChars_noNl "id" vI (by decide) hI
  have n3 := metaLineChars_noNl "name" vN (by decide) hN
  have n4 := metaLineChars_noNl "description" vD (by decide) hD
  have n5 := metaLineChars_noNl "author" vA (by decide) hA
  have n6 := metaLineChars_noNl "version" vV (by decide) hV
  have n7 := metaLineChars_noNl "date" vDt (by decide) hDt
  have n8 := metaLineChars_noNl "license" vL (by decide) hL
  have c8 : List.Chain' nnR ('\n' :: (metaLineChars "license" vL ++ ['\n'])) :=
    chainNN_step _ _ n8 (metaLineChars_ne_nil _ _) (by simp)
  have c7 := chainNN_step _ _ n7 (metaLineChars_ne_nil "date" vDt) c8
  have c6 := chainNN_step _ _ n6 (metaLineChars_ne_nil "version" vV) c7
  have c5 := chainNN_step _ _ n5 (metaLineChars_ne_nil "author" vA) c6
  have c4 := chainNN_step _ _ n4 (metaLineChars_ne_nil "description" vD) c5
  have c3 := chainNN_step _ _ n3 (metaLineChars_ne_nil "name" vN) c4
  have c2 := chainNN_step _ _ n2 (metaLineChars_ne_nil "id" vI) c3
  have c1 := chainNN_step _ _ n1 (metaLineChars_ne_nil "type" vT) c2
  have hshape : metaBlock vT vI vN vD vA vV vDt vL ++ ['\n']
      = "[meta]".toList ++
        ('\n' :: (metaLineChars "type" vT ++
        ('\n' :: (metaLineChars "id" vI ++
        ('\n' :: (metaLineChars "name" vN ++
        ('\n' :: (metaLineChars "description" vD ++
        ('\n' :: (metaLineChars "author" vA ++
        ('\n' :: (metaLineChars "version" vV ++
        ('\n' :: (metaLineChars "date" vDt ++
        ('\n' :: (metaLineChars "license" vL ++ ['\n'])))))))))))))))) := by
    simp only [metaBlock, List.append_assoc, List.cons_append]
  rw [hshape, List.chain'_append]
  refine ⟨(breakOn_nn_none_iff _).mp (by decide), c1, ?_⟩
  intro x hx y hy
  obtain rfl : ']' = x := by
    have hg : ("[meta]".toList).getLast? = some ']' := by decide
    rw [hg] at hx
    simpa using hx
  obtain rfl : '\n' = y := by simpa using hy
  decide

theorem splitNL_metaBlock (vT vI vN vD vA vV vDt vL : Chars)
    (hT : ∀ c ∈ vT, c ≠ '\n') (hI : ∀ c ∈ vI, c ≠ '\n') (hN : ∀ c ∈ vN, c ≠ '\n')
    (hD : ∀ c ∈ vD, c ≠ '\n') (hA : ∀ c ∈ vA, c ≠ '\n') (hV : ∀ c ∈ vV, c ≠ '\n')
    (hDt : ∀ c ∈ vDt, c ≠ '\n') (hL : ∀ c ∈ vL, c ≠ '\n') :
    splitNL (metaBlock vT vI vN vD vA vV vDt vL)
      = "[meta]".toList ::
        metaLineChars "type" vT :: metaLineChars "id" vI ::
        metaLineChars "name" vN :: metaLineChars "description" vD ::
        metaLineChars "author" vA :: metaLineChars "version" vV ::
        metaLineChars "date" vDt :: [metaLineChars "license" vL] := by
  unfold metaBlock
  rw [splitNL_append _ _ (by decide)]
  rw [splitNL_append _ _ (metaLineChars_noNl "type" vT (by decide) hT)]
  rw [splitNL_append _ _ (metaLineChars_noNl "id" vI (by decide) hI)]
  rw [splitNL_append _ _ (metaLineChars_noNl "name" vN (by decide) hN)]
  rw [splitNL_append _ _ (metaLineChars_noNl "description" vD (by decide) hD)]
  rw [splitNL_append _ _ (metaLineChars_noNl "author" vA (by decide) hA)]
  rw [splitNL_append _ _ (metaLineChars_noNl "version" vV (by decide) hV)]
  rw [splitNL_append _ _ (metaLineChars_noNl "date" vDt (by decide) hDt)]
  rw [splitNL_noNl _ (metaLineChars_noNl "license" vL (by decide) hL)]

theorem parseMetaLines_metaBlock (vT vI vN vD vA vV vDt vL : Chars)
    (hT : metaValueOkC vT) (hI : metaValueOkC vI) (hN : metaValueOkC vN)
    (hD : metaValueOkC vD) (hA : metaValueOkC vA) (hV : metaValueOkC vV)
    (hDt : metaValueOkC vDt) (hL : metaValueOkC vL) :
    parseMetaLines
        [metaLineChars "type" vT, metaLineChars "id" vI,
         metaLineChars "name" vN, metaLineChars "description" vD,
         metaLineChars "author" vA, metaLineChars "version" vV,
         metaLineChars "date" vDt, metaLineChars "license" vL]
      = some
        [("type".toList, vT), ("id".toList, vI), ("name".toList, vN),
         ("description".toList, vD), ("author".toList, vA), ("version".toList, vV),
         ("date".toList, vDt), ("license".toList, vL)] := by
  have e1 := parseMetaLine_mk "type" vT (by decide) (by decide)
    (fun c hc => (hT.1 c hc).2) hT.2
  have e2 := parseMetaLine_mk "id" vI (by decide) (by decide)
    (fun c hc => (hI.1 c hc).2) hI.2
  have e3 := parseMetaLine_mk "name" vN (by decide) (by decide)
    (fun c hc => (hN.1 c hc).2) hN.2
  have e4 := parseMetaLine_mk "description" vD (by decide) (by decide)
    (fun c hc => (hD.1 c hc).2) hD.2
  have e5 := parseMetaLine_mk "author" vA (by decide) (by decide)
    (fun c hc => (hA.1 c hc).2) hA.2
  have e6 := parseMetaLine_mk "version" vV (by decide) (by decide)
    (fun c hc => (hV.1 c hc).2) hV.2
  have e7 := parseMetaLine_mk "date" vDt (by decide) (by decide)
    (fun c hc => (hDt.1 c hc).2) hDt.2
  have e8 := parseMetaLine_mk "license" vL (by decide) (by decide)
    (fun c hc => (hL.1 c hc).2) hL.2
  simp only [parseMetaLines, e1, e2, e3, e4, e5, e6, e7, e8]

theorem parse_template (vT vI vN vD vA vV vDt vL C : Chars)
    (hT : metaValueOkC vT) (hI : metaValueOkC vI) (hN : metaValueOkC vN)
    (hD : metaValueOkC vD) (hA : metaValueOkC vA) (hV : metaValueOkC vV)
    (hDt : metaValueOkC vDt) (hL : metaValueOkC vL)
    (hC : breakOn nnSep ('\n' :: C ++ ['\n']) = none) :
    parsePromptFileChars
        (metaBlock vT vI vN vD vA vV vDt vL ++
          (nnSep ++ (contentOpen ++ C ++ contentClose)))
      = some
          { meta :=
              { type := some vT, id := some vI, name := some vN,
                description := some vD, author := some vA, version := some vV,
                date := some vDt, license := some vL }
            content := C } := by
  have hsplit : breakOn nnSep
      (metaBlock vT vI vN vD vA vV vDt vL ++
        (nnSep ++ (contentOpen ++ C ++ contentClose)))
      = some (metaBlock vT vI vN vD vA vV vDt vL, contentOpen ++ C ++ contentClose) := by
    refine breakOn_mid nnSep _ _ (by decide) ?_
    rw [show nnSep.dropLast = ['\n'] from rfl]
    exact metaBlock_nl_free vT vI vN vD vA vV vDt vL
      (fun c hc => (hT.1 c hc).1) (fun c hc => (hI.1 c hc).1)
      (fun c hc => (hN.1 c hc).1) (fun c hc => (hD.1 c hc).1)
      (fun c hc => (hA.1 c hc).1) (fun c hc => (hV.1 c hc).1)
      (fun c hc => (hDt.1 c hc).1) (fun c hc => (hL.1 c hc).1)
  have hcs : jsSplitHead nnSep (contentOpen ++ C ++ contentClose)
      = contentOpen ++ C ++ contentClose := by
    unfold jsSplitHead
    rw [contentBlock_nl_free C hC]
  have hlines := splitNL_metaBlock vT vI vN vD vA vV vDt vL
    (fun c hc => (hT.1 c hc).1) (fun c hc => (hI.1 c hc).1)
    (fun c hc => (hN.1 c hc).1) (fun c hc => (hD.1 c hc).1)
    (fun c hc => (hA.1 c hc).1) (fun c hc => (hV.1 c hc).1)
    (fun c hc => (hDt.1 c hc).1) (fun c hc => (hL.1 c hc).1)
  have hpairs := parseMetaLines_metaBlock vT vI vN vD vA vV vDt vL
    hT hI hN hD hA hV hDt hL
  unfold parsePromptFileChars
  rw [hsplit]
  show (match parseMetaLines
          ((splitNL (metaBlock vT vI vN vD vA vV vDt vL)).drop 1) with
        | none => none
        | some pairs =>
          some
            ({ meta := buildParsedMeta pairs
               content :=
                 match matchContentRegex
                     (jsSplitHead nnSep (contentOpen ++ C ++ contentClose)) with
                 | none => []
                 | some g => g } : ParsedPrompt))
      = some
          { meta :=
              { type := some vT, id := some vI, name := some vN,
                description := some vD, author := some vA, version := some vV,
                date := some vDt, license := some vL }
            content := C }
  rw [hlines]
  show (match parseMetaLines
          [metaLineChars "type" vT, metaLineChars "id" vI,
           metaLineChars "name" vN, metaLineChars "description" vD,
           metaLineChars "author" vA, metaLineChars "version" vV,
           metaLineChars "date" vDt, metaLineChars "license" vL] with
        | none => none
        | some pairs =>
          some
            ({ meta := buildParsedMeta pairs
               content :=
                 match matchContentRegex
                     (jsSplitHead nnSep (contentOpen ++ C ++ contentClose)) with
                 | none => []
                 | some g => g } : ParsedPrompt))
      = some
          { meta :=
              { type := some vT, id := some vI, name := some vN,
                description := some vD, author := some vA, version := some vV,
                date := some vDt, license := some vL }
            content := C }
  rw [hpairs, hcs, matchContentRegex_block C]
  rfl

theorem toList_mk (l : Chars) : (String.mk l).toList = l := rfl

theorem savePromptTomlChars_shape (p : Prompt) :
    savePromptTomlChars p
      = metaBlock p.meta.type.toList p.meta.id.toList p.meta.name.toList
          p.meta.description.toList p.meta.author.toList p.meta.version.toList
          p.meta.date.toList p.meta.license.toList ++
        (nnSep ++ (contentOpen ++ p.content.toList ++ contentClose)) := by
  simp only [savePromptTomlChars, metaBlock, nnSep, List.append_assoc,
    List.cons_append, List.nil_append]

/-- The naive TOML persistence round-trips every record whose meta fields
and content satisfy the `promptOk` conditions. -/
theorem parse_save (p : Prompt) (hp : promptOk p) :
    parsePromptFile (savePromptToml p) = some (toParsed p) := by
  obtain ⟨⟨hT, hI, hN, hD, hA, hV, hDt, hL⟩, hC⟩ := hp
  unfold parsePromptFile savePromptToml
  rw [toList_mk, savePromptTomlChars_shape]
  exact parse_template _ _ _ _ _ _ _ _ _ hT hI hN hD hA hV hDt hL hC

theorem jsEndsWith_append (suffix base : String) :
    jsEndsWith suffix (base ++ suffix) = true := by
  unfold jsEndsWith
  rw [ List.isPrefixOf_iff_prefix]
  have hdata : (base ++ suffix).toList = base.toList ++ suffix.toList := by
    simp [String.toList]
  rw [hdata, List.reverse_append]
  exact List.prefix_append _ _

theorem loadPromptsRev_single (name content : String) (pr : ParsedPrompt)
    (hend : jsEndsWith ".toml" name = true)
    (hparse : parsePromptFile content = some pr) :
    loadPromptsRev (.ok [(name, content)]) = [pr] := by
  unfold loadPromptsRev
  simp [hend, hparse, List.filter, List.filterMap]

/-! ## Claims -/

/-- C1: while a push wrapped in the suppression mechanism is running for a
path, that path is in the pending sync set (`trackSyncOperation` adds it
before the wrapped operation runs), and the `onDidChangeTextDocument`
handler invoked for a path in the pending set returns `ignoredSyncing`
without prompting the user; likewise, while the `syncLock` of the
`part_006` variant is held, the `onDidSaveTextDocument` handler skips the
event outright.  Hence a self-initiated write is never classified as a
novel external edit while its suppression is active. -/
theorem claim_C1 (ops : List String) (fp : String)
    (rulesType : String → Option String) (prompts : List (ParsedPrompt × String))
    (content : Chars) (lockHeld isIdeRule isOmpToml : Bool) :
    isSyncing (trackSyncBegin ops fp) fp = true ∧
    (isSyncing ops fp = true →
      changeHandler ops rulesType prompts fp content = .ignoredSyncing) ∧
    (lockHeld = true →
      onDidSaveDecision lockHeld isIdeRule isOmpToml = .lockSkipped) := by
  refine ⟨?_, ?_, ?_⟩
  · unfold isSyncing trackSyncBegin addSyncOp
    by_cases h : ops.contains fp
    · rw [if_pos h]
      exact h
    · rw [if_neg h]
      simp
  · intro h
    unfold changeHandler
    rw [if_pos h]
  · intro h
    unfold onDidSaveDecision
    rw [if_pos h]

theorem claim_C1_witness :
    isSyncing (trackSyncBegin [] "/ws/.windsurfrules") "/ws/.windsurfrules" = true ∧
    changeHandler ["/ws/.windsurfrules"] (fun _ => some "project") []
        "/ws/.windsurfrules" ['h', 'i'] = .ignoredSyncing ∧
    onDidSaveDecision true true false = .lockSkipped :=
  ⟨(claim_C1 [] "/ws/.windsurfrules" (fun _ => some "project") [] ['h', 'i']
      true true false).1,
   (claim_C1 ["/ws/.windsurfrules"] "/ws/.windsurfrules" (fun _ => some "project")
      [] ['h', 'i'] true true false).2.1 (by decide),
   (claim_C1 [] "/x" (fun _ => none) [] [] true true false).2.2 rfl⟩

/-- C3: when the external-edit detector actually runs on a rules file (the
path is not suppressed and resolves to a category) and the file content is
byte-for-byte equal to the content of at least one record in the loaded
list, both change handlers classify the edit as already known and do not
prompt.  Both handlers are pure functions of their inputs, so re-running
the detection on unchanged content yields `alreadyKnown` again — no
repetition ever produces a prompt. -/
theorem claim_C3 (ops : List String) (fp t : String)
    (rulesType : String → Option String) (prompts : List (ParsedPrompt × String))
    (prompts2 : List ParsedPrompt) (content : Chars)
    (hnosync : isSyncing ops fp = false) (hrt : rulesType fp = some t)
    (hex : ∃ q ∈ prompts, q.1.content = content)
    (hex2 : ∃ q ∈ prompts2, q.content = content) :
    changeHandler ops rulesType prompts fp content = .alreadyKnown ∧
    watchRulesDecision prompts2 content = .alreadyKnown := by
  constructor
  · unfold changeHandler
    rw [if_neg (by rw [hnosync]; exact Bool.false_ne_true), hrt]
    have hany : prompts.any (fun q => q.1.content == content) = true := by
      rw [List.any_eq_true]
      obtain ⟨q, hq, he⟩ := hex
      exact ⟨q, hq, by simpa using he⟩
    rw [if_pos hany]
  · unfold watchRulesDecision
    have hany : prompts2.any (fun q => q.content == content) = true := by
      rw [List.any_eq_true]
      obtain ⟨q, hq, he⟩ := hex2
      exact ⟨q, hq, by simpa using he⟩
    rw [if_pos hany]

theorem claim_C3_witness :
    changeHandler [] (fun _ => some "project")
        [(⟨⟨none, none, none, none, none, none, none, none⟩, ['A']⟩, "/d/a.toml")]
        "/ws/.windsurfrules" ['A'] = .alreadyKnown ∧
    watchRulesDecision [⟨⟨none, none, none, none, none, none, none, none⟩, ['A']⟩]
        ['A'] = .alreadyKnown :=
  claim_C3 [] "/ws/.windsurfrules" "project" (fun _ => some "project")
    [(⟨⟨none, none, none, none, none, none, none, none⟩, ['A']⟩, "/d/a.toml")]
    [⟨⟨none, none, none, none, none, none, none, none⟩, ['A']⟩]
    ['A'] (by decide) rfl
    ⟨(⟨⟨none, none, none, none, none, none, none, none⟩, ['A']⟩, "/d/a.toml"),
      by simp, rfl⟩
    ⟨⟨⟨none, none, none, none, none, none, none, none⟩, ['A']⟩, by simp, rfl⟩

/-- C4: suppression self-heals.  The `finally` block of
`trackSyncOperation` removes the path from the pending set whether the
wrapped operation resolved or threw, so after the operation the path is no
longer syncing and a later change event for it is not short-circuited by
the suppression check; and the timed `syncLock` auto-releases once the
1000 ms deadline armed by `acquireSyncLock` has passed, even if
`releaseSyncLock` is never called. -/
theorem claim_C4 (ops : List String) (fp : String) (opThrew : Bool)
    (rulesType : String → Option String) (prompts : List (ParsedPrompt × String))
    (content : Chars) (st : LockState) (t now : Nat) (hnow : t + 1000 ≤ now) :
    isSyncing (trackSyncRun ops fp opThrew) fp = false ∧
    changeHandler (trackSyncRun ops fp opThrew) rulesType prompts fp content
      ≠ .ignoredSyncing ∧
    (expireSyncTimer (acquireSyncLock st t) now).syncLock = false := by
  have h1 : isSyncing (trackSyncRun ops fp opThrew) fp = false := by
    unfold trackSyncRun removeSyncOp isSyncing
    rw [Bool.eq_false_iff]
    intro hc
    have hmem : fp ∈ (trackSyncBegin ops fp).filter (fun x => x != fp) := by
      rw [← List.elem_iff]
      exact hc
    have := List.of_mem_filter hmem
    simp at this
  refine ⟨h1, ?_, ?_⟩
  · unfold changeHandler
    rw [if_neg (by rw [h1]; exact Bool.false_ne_true)]
    cases hr : rulesType fp with
    | none => simp
    | some t =>
      by_cases ha : prompts.any (fun q => q.1.content == content) = true
      · rw [if_pos ha]
        simp
      · rw [if_neg ha]
        simp
  · show (expireSyncTimer { syncLock := true, syncTimeout := some (t + 1000) }
        now).syncLock = false
    unfold expireSyncTimer
    show ((if t + 1000 ≤ now then releaseSyncLock _ else _)).syncLock = false
    rw [if_pos hnow]
    rfl

theorem claim_C4_witness :
    isSyncing (trackSyncRun [] "/ws/.windsurfrules" true) "/ws/.windsurfrules" = false ∧
    changeHandler (trackSyncRun [] "/ws/.windsurfrules" true) (fun _ => some "project")
        [] "/ws/.windsurfrules" ['A'] ≠ .ignoredSyncing ∧
    (expireSyncTimer (acquireSyncLock ⟨false, none⟩ 5) 1005).syncLock = false :=
  claim_C4 [] "/ws/.windsurfrules" true (fun _ => some "project") [] ['A']
    ⟨false, none⟩ 5 1005 (by decide)

/-- C5: in the `part_007` revision, a push of record `r` to rules path `fp`
run through `trackSyncOperation` appends exactly one event to the change
notifier, the event's content equals `r.content` (the file is read back
after the write has taken effect, so the emitted content is the content the
write left on disk), and a push whose wrapped operation throws appends no
event at all. -/
theorem claim_C5 (st : WatcherState) (fp t : String)
    (rulesType : String → Option String) (r : Prompt)
    (hrt : rulesType fp = some t) :
    (trackSyncPush st fp rulesType r true).events = st.events ++ [(t, r.content)] ∧
    fsRead (trackSyncPush st fp rulesType r true).fs fp = some r.content ∧
    (trackSyncPush st fp rulesType r false).events = st.events := by
  have hread : fsRead (fsWrite st.fs fp r.content) fp = some r.content := by
    unfold fsRead fsWrite
    simp [List.lookup]
  refine ⟨?_, ?_, ?_⟩
  · simp only [trackSyncPush, if_pos, hrt, hread]
    rfl
  · simp only [trackSyncPush, if_pos, hrt, hread]
  · rfl

theorem claim_C5_witness :
    (trackSyncPush ⟨[], [], []⟩ "/g.md" (fun p => if p = "/g.md" then some "global" else none)
        witnessPrompt true).events = [] ++ [("global", witnessPrompt.content)] ∧
    fsRead (trackSyncPush ⟨[], [], []⟩ "/g.md"
        (fun p => if p = "/g.md" then some "global" else none) witnessPrompt true).fs
        "/g.md" = some witnessPrompt.content ∧
    (trackSyncPush ⟨[], [], []⟩ "/g.md"
        (fun p => if p = "/g.md" then some "global" else none) witnessPrompt false).events
      = [] :=
  claim_C5 ⟨[], [], []⟩ "/g.md" "global"
    (fun p => if p = "/g.md" then some "global" else none) witnessPrompt (by decide)

/-- C10: listing a category never rejects — when the directory read fails
(missing directory or I/O error), every `loadPrompts` revision catches the
error and resolves to the empty list instead of propagating it. -/
theorem claim_C10 (e : String) :
    loadPromptsRev (.error e) = [] ∧ loadPromptsP5 (.error e) = [] :=
  ⟨rfl, rfl⟩

/-- C2 (amended): saving a record and then listing its category returns a
record equal in meta and content (byte-exact) to what was saved — provided
the record satisfies `promptOk`: every meta field is free of newlines,
double quotes and `" = "`, and the content contains no blank line and no
leading or trailing newline.  Records outside this class do not round-trip
(see the counterexample), so the unrestricted claim is false. -/
theorem claim_C2 (p : Prompt) (hp : promptOk p) :
    loadPromptsRev (.ok [(p.meta.id ++ ".toml", savePromptToml p)]) = [toParsed p] :=
  loadPromptsRev_single _ _ _ (jsEndsWith_append ".toml" p.meta.id) (parse_save p hp)

set_option maxRecDepth 40000 in
theorem claim_C2_witness :
    promptOk witnessPrompt ∧
    loadPromptsRev (.ok [(witnessPrompt.meta.id ++ ".toml", savePromptToml witnessPrompt)])
      = [toParsed witnessPrompt] :=
  ⟨by decide, claim_C2 witnessPrompt (by decide)⟩

set_option maxRecDepth 40000 in
/-- C2 counterexample: `blankLinePrompt`, whose content
`"line one\n\nline two"` contains a blank line, is saved and then listed
back with content `""` — the parser truncates the file at the first blank
line, so the listed content is not byte-exact equal to the saved content. -/
theorem claim_C2_counterexample :
    (loadPromptsRev (.ok [(blankLinePrompt.meta.id ++ ".toml",
        savePromptToml blankLinePrompt)])).map (fun q => q.content) = [[]] ∧
    blankLinePrompt.content ≠ "" := by
  constructor
  · decide
  · decide

/-- C6 evaluated on the code: when the detected IDE is cursor and the
category is global — exactly the "global rules live in the IDE's own
settings UI" case of the claim — `getRulesPath` does not throw; it returns
the sentinel string `"cursor://settings"`, and `syncGlobalPrompt` then
performs its write to that sentinel path (no `NoRulesPathError`, and a
file write is attempted).  Only for vscode/unknown does the resolver throw,
in which case no write happens. -/
theorem claim_C6_eval :
    getRulesPathResolve .cursor "global" none "/home/u" = .ok "cursor://settings" ∧
    (syncGlobalPrompt .cursor "/home/u" [] cursorPushPrompt).2
      = .ok ("cursor://settings", "Be concise.") ∧
    fsRead (syncGlobalPrompt .cursor "/home/u" [] cursorPushPrompt).1
        "cursor://settings" = some "Be concise." ∧
    getRulesPathResolve .vscode "global" none "/home/u"
      = .error "The vscode does not support global rules" ∧
    (syncGlobalPrompt .vscode "/home/u" [] cursorPushPrompt).2
      = .error "The vscode does not support global rules" ∧
    (syncGlobalPrompt .vscode "/home/u" [] cursorPushPrompt).1 = [] := by
  refine ⟨rfl, rfl, by decide, rfl, rfl, rfl⟩

/-- C7 (amended): a parse failure of one record file does not abort the
whole `loadPrompts` call — every file that parses successfully still
appears in the result — but the malformed record is silently dropped from
the result rather than surfaced as an error entry: no element of the
result refers to its path. -/
theorem claim_C7 (files : List (String × String)) (path content : String)
    (pr : ParsedPrompt) :
    ((path, content) ∈ files → jsEndsWith ".toml" path = true →
      parsePromptFile content = some pr → (pr, path) ∈ loadPromptsP5 (.ok files)) ∧
    ((∀ c', (path, c') ∈ files → parsePromptFile c' = none) →
      ∀ q ∈ loadPromptsP5 (.ok files), q.2 ≠ path) := by
  constructor
  · intro hmem hend hparse
    unfold loadPromptsP5
    rw [List.mem_filterMap]
    refine ⟨(path, content), ?_, ?_⟩
    · rw [List.mem_filter]
      exact ⟨hmem, hend⟩
    · rw [hparse]
      rfl
  · intro hall q hq hpath
    unfold loadPromptsP5 at hq
    rw [List.mem_filterMap] at hq
    obtain ⟨⟨p', c'⟩, hmem, heq⟩ := hq
    rw [List.mem_filter] at hmem
    cases hp : parsePromptFile c' with
    | none =>
      rw [hp] at heq
      cases heq
    | some pr' =>
      rw [hp] at heq
      have hq2 : q = (pr', p') := by
        simpa using heq.symm
      have hp' : p' = path := by
        rw [hq2] at hpath
        exact hpath
      subst hp'
      exact absurd hp (by rw [hall c' hmem.1]; intro h; cases h)

set_option maxRecDepth 40000 in
theorem claim_C7_witness :
    (toParsed witnessPrompt, "/d/good.toml") ∈ loadPromptsP5 (.ok
      [("/d/good.toml", savePromptToml witnessPrompt),
       ("/d/bad.toml", "not a prompt file")]) ∧
    (∀ q ∈ loadPromptsP5 (.ok
      [("/d/good.toml", savePromptToml witnessPrompt),
       ("/d/bad.toml", "not a prompt file")]), q.2 ≠ "/d/bad.toml") :=
  ⟨(claim_C7 [("/d/good.toml", savePromptToml witnessPrompt),
      ("/d/bad.toml", "not a prompt file")] "/d/good.toml"
      (savePromptToml witnessPrompt) (toParsed witnessPrompt)).1
      (by simp) (by decide) (parse_save witnessPrompt (by decide)),
   (claim_C7 [("/d/good.toml", savePromptToml witnessPrompt),
      ("/d/bad.toml", "not a prompt file")] "/d/bad.toml" ""
      (toParsed witnessPrompt)).2
      (by
        intro c' hc'
        rcases List.mem_cons.mp hc' with h | h
        · have hfst : "/d/bad.toml" = "/d/good.toml" := congrArg Prod.fst h
          exact absurd hfst (by decide)
        · rcases List.mem_cons.mp h with h2 | h2
          · have hsnd : c' = "not a prompt file" := congrArg Prod.snd h2
            rw [hsnd]
            decide
          · exact absurd h2 (List.not_mem_nil _))⟩

set_option maxRecDepth 40000 in
/-- C7 counterexample: with one well-formed and one malformed record file
in the category directory, `loadPrompts` returns exactly one entry — the
well-formed one.  The malformed file is silently dropped: no entry (error
or otherwise) refers to it, contradicting the claim that a per-record
error entry is surfaced alongside the parsed records. -/
theorem claim_C7_counterexample :
    (loadPromptsP5 (.ok [("/d/good.toml", savePromptToml witnessPrompt),
        ("/d/bad.toml", "not a prompt file")])).map (fun q => q.2)
      = ["/d/good.toml"] := by
  decide

/-- C8 (amended): importing never overwrites an *existing* rules file: if
the resolver yields path `p` and the file at `p` exists with content `c`,
then after `importFromIdeRules` the content at `p` is still `c` — the only
write goes to the record's `.toml` file in the prompt store.  (When the
rules file does *not* exist, the resolver creates it empty as a side
effect, so the unrestricted claim fails — see the counterexample.) -/
theorem claim_C8 (ide : IDE) (ty : String) (workspaceRoot : Option String)
    (home promptDir iso : String) (fs : FS) (p c : String)
    (hres : getRulesPathResolve ide ty workspaceRoot home = .ok p)
    (hex : fsRead fs p = some c)
    (hne : promptTomlPath promptDir ty (importedId ide iso) ≠ p) :
    fsRead (importFromIdeRules ide ty workspaceRoot home promptDir iso fs).1 p
      = some c := by
  have hens : ensureRulesFile ide ty fs p = fs := by
    unfold ensureRulesFile
    by_cases hcg : ide = .cursor ∧ ty = "global"
    · rw [if_pos hcg]
    · rw [if_neg hcg, hex]
  have hrp : getRulesPath ide ty workspaceRoot home fs = (fs, .ok p) := by
    unfold getRulesPath
    rw [hres]
    show (ensureRulesFile ide ty fs p, Except.ok p) = (fs, Except.ok p)
    rw [hens]
  unfold importFromIdeRules
  rw [hrp]
  simp only [hex]
  show fsRead (fsWrite fs
      (promptTomlPath promptDir ty (importedPrompt ide ty iso c).meta.id)
      (savePromptToml (importedPrompt ide ty iso c))) p = some c
  unfold fsRead fsWrite
  have hbeq : (p == promptTomlPath promptDir ty (importedPrompt ide ty iso c).meta.id)
      = false := by
    rw [beq_eq_false_iff_ne]
    intro h
    apply hne
    rw [show promptTomlPath promptDir ty (importedId ide iso)
        = promptTomlPath promptDir ty (importedPrompt ide ty iso c).meta.id from rfl]
    exact h.symm
  simp [List.lookup, hbeq]
  exact hex

set_option maxRecDepth 40000 in
theorem claim_C8_witness :
    getRulesPathResolve .windsurf "project" (some "/ws") "/home/u"
      = .ok "/ws/.windsurfrules" ∧
    fsRead [("/ws/.windsurfrules", "Use tabs.")] "/ws/.windsurfrules"
      = some "Use tabs." ∧
    promptTomlPath "/home/u/.oh-my-prompt/prompts" "project"
        (importedId .windsurf "2025-01-12T03:45:59.123Z") ≠ "/ws/.windsurfrules" ∧
    fsRead (importFromIdeRules .windsurf "project" (some "/ws") "/home/u"
        "/home/u/.oh-my-prompt/prompts" "2025-01-12T03:45:59.123Z"
        [("/ws/.windsurfrules", "Use tabs.")]).1 "/ws/.windsurfrules"
      = some "Use tabs." :=
  ⟨rfl, by decide, by decide,
   claim_C8 .windsurf "project" (some "/ws") "/home/u"
     "/home/u/.oh-my-prompt/prompts" "2025-01-12T03:45:59.123Z"
     [("/ws/.windsurfrules", "Use tabs.")] "/ws/.windsurfrules" "Use tabs."
     rfl (by decide) (by decide)⟩

set_option maxRecDepth 40000 in
/-- C8 counterexample: when the rules file does not exist, merely resolving
its path inside `importFromIdeRules` creates it as an empty file: before the
call the path `/ws/.windsurfrules` does not exist, after the call it exists
with content `""` — the rules file is not identical to its state before the
call. -/
theorem claim_C8_counterexample :
    fsRead ([] : FS) "/ws/.windsurfrules" = none ∧
    fsRead (importFromIdeRules .windsurf "project" (some "/ws") "/home/u"
        "/home/u/.oh-my-prompt/prompts" "2025-01-12T03:45:59.123Z" []).1
        "/ws/.windsurfrules" = some "" := by
  exact ⟨rfl, by decide⟩

/-- C9 evaluated on the code: the generated ids are the ISO timestamp
truncated to *second* precision (`slice(0, -4)` drops the millisecond
digits), so two invocations of `createPrompt` or `importFromIdeRules`
within the same clock second produce identical ids — and hence the same
store file path, so the second record silently overwrites the first. -/
theorem claim_C9_eval :
    ("2025-01-12T03:45:59.123Z" : String) ≠ "2025-01-12T03:45:59.987Z" ∧
    timestampId "2025-01-12T03:45:59.123Z" = "2025-01-12_034559" ∧
    timestampId "2025-01-12T03:45:59.123Z" = timestampId "2025-01-12T03:45:59.987Z" ∧
    (createPromptModel "global" "2025-01-12T03:45:59.123Z").meta.id
      = (createPromptModel "global" "2025-01-12T03:45:59.987Z").meta.id ∧
    importedId .windsurf "2025-01-12T03:45:59.123Z"
      = importedId .windsurf "2025-01-12T03:45:59.987Z" ∧
    promptTomlPath "/home/u/.oh-my-prompt/prompts" "global"
        (createPromptModel "global" "2025-01-12T03:45:59.123Z").meta.id
      = promptTomlPath "/home/u/.oh-my-prompt/prompts" "global"
        (createPromptModel "global" "2025-01-12T03:45:59.987Z").meta.id := by
  decide

end OhMyPrompt
